import Mathlib

/-!
Verification of the simple-dgm repository (archive, evaluator, patch
extractor, benchmark loader) against its natural-language specification.

The Python source is shallowly embedded:
* the SQLite `agents` table is a `List Agent` kept in insertion
  (creation-time) order, with `created_at` modelled by list position;
* floats that only ever hold benchmark scores are modelled as `ℚ`;
* external processes (git, test runner) and the external agent are
  oracles passed as parameters; a Python exception is an `Except.error`
  carrying the exception text;
* Python dicts with optional keys become structures with `Option` fields.
-/

namespace SimpleDGM

/-- One archived agent variant: a row of the `agents` table
(`archive.py`, `init_database`).  The archive itself is the list of rows
in insertion order; `created_at` is the row's position in that list
(timestamps of successive inserts are modelled as distinct and
increasing). -/
structure Agent where
  id : Nat
  code : String
  score : ℚ
  parent_id : Option Nat
  descr : String
  is_functional : Bool
deriving DecidableEq

/-- Embeds the query of `archive.py` `SimpleArchive.get_agent`:
select the row whose id matches. -/
def get_agent (arch : List Agent) (agent_id : Nat) : Option Agent :=
  arch.find? (fun a => a.id == agent_id)

/-- Embeds `archive.py` `SimpleArchive.get_all_agents`: all agents (optionally
the functional ones only), `ORDER BY created_at DESC`, i.e. reverse
insertion order. -/
def get_all_agents (arch : List Agent) (functional_only : Bool) : List Agent :=
  if functional_only then (arch.filter (fun a => a.is_functional)).reverse
  else arch.reverse

/-- Number of functional agents in the archive. -/
def functionalCount (arch : List Agent) : Nat :=
  (arch.filter (fun a => a.is_functional)).length

/-- The comparison `sorted(..., key=lambda x: x["score"], reverse=True)`
sorts by: `a` may come before `b` iff `b.score ≤ a.score`.  Python's
sort is stable, as is `List.insertionSort`, so the two agree. -/
def scoreGe (a b : Agent) : Prop := b.score ≤ a.score

instance : DecidableRel scoreGe := fun a b =>
  inferInstanceAs (Decidable (b.score ≤ a.score))

instance : IsTotal Agent scoreGe := ⟨fun a b => le_total b.score a.score⟩

instance : IsTrans Agent scoreGe := ⟨fun _ _ _ h₁ h₂ => le_trans h₂ h₁⟩

/-- Decidable (kernel-computable) check that a list of agents is
ordered by score descending. -/
def scoresDesc : List Agent → Bool
  | [] => true
  | [_] => true
  | a :: b :: rest => decide (b.score ≤ a.score) && scoresDesc (b :: rest)

/-- Embeds `archive.py` `SimpleArchive.select_parents`: returns `[]` when there
are no functional agents; all of them (in `get_all_agents` order, i.e.
creation time descending) when there are fewer than `k`; otherwise the
top `k` by score descending (stable sort). -/
def select_parents (arch : List Agent) (k : Nat) : List Agent :=
  let functional_agents := get_all_agents arch true
  if functional_agents.isEmpty then []
  else if functional_agents.length < k then functional_agents
  else (List.insertionSort scoreGe functional_agents).take k

/-- Embeds `archive.py` `SimpleArchive.get_lineage`, with the `while` loop
unrolled on explicit fuel: follow parent links from `agent_id`,
collecting each found agent, stopping at a `parent_id` of `NULL` or at
an id absent from the archive. -/
def lineageAux (arch : List Agent) : Nat → Nat → List Agent
  | 0, _ => []
  | fuel + 1, current_id =>
    match get_agent arch current_id with
    | none => []
    | some ag =>
      match ag.parent_id with
      | none => [ag]
      | some p => ag :: lineageAux arch fuel p

/-- The lineage walk run with enough fuel (`agent_id + 1` steps suffice
under the insertion invariant, proved below). -/
def get_lineage (arch : List Agent) (agent_id : Nat) : List Agent :=
  lineageAux arch (agent_id + 1) agent_id

/-- A single agent row respects the insertion invariant: its parent id,
when present, is strictly smaller than its own id. -/
def parentLt (a : Agent) : Prop :=
  match a.parent_id with
  | none => True
  | some p => p < a.id

instance : DecidablePred parentLt := fun a => by
  unfold parentLt
  cases a.parent_id <;> infer_instance

/-- The archive-wide insertion invariant (spec §9: "a parent id always
precedes its child's id"), which structurally rules out cycles in the
parent chains. -/
def parentDecreasing (arch : List Agent) : Prop :=
  ∀ a ∈ arch, parentLt a

instance : DecidablePred parentDecreasing := fun arch =>
  List.decidableBAll parentLt arch

/-- The proposition that `l` is exactly the lineage chain of `agent_id`:
it follows parent links from `agent_id`, contains each agent found on
the way in order, and stops only at the root (`parent_id` `NULL`) or at
the first id missing from the archive (returning the prefix found so
far). -/
inductive IsLineageChain (arch : List Agent) : Nat → List Agent → Prop where
  | missing : ∀ i, get_agent arch i = none → IsLineageChain arch i []
  | root : ∀ i ag, get_agent arch i = some ag → ag.parent_id = none →
      IsLineageChain arch i [ag]
  | step : ∀ i ag p l, get_agent arch i = some ag → ag.parent_id = some p →
      IsLineageChain arch p l → IsLineageChain arch i (ag :: l)

/-- Models the SQL MAX aggregate: `NULL` (here `none`) on an empty row set. -/
def sqlMaxQ : List ℚ → Option ℚ
  | [] => none
  | x :: xs => some (xs.foldl max x)

/-- Models the SQL AVG aggregate: `NULL` on an empty row set. -/
def sqlAvgQ (l : List ℚ) : Option ℚ :=
  if l.isEmpty then none else some (l.sum / l.length)

/-- Python's `x or 0.0` applied to a fetched SQL aggregate: `None` and
the falsy `0.0` both become `0.0`. -/
def pyOrZero : Option ℚ → ℚ
  | none => 0
  | some x => if x = 0 then 0 else x

/-- The scores of the functional agents, in creation order. -/
def functionalScores (arch : List Agent) : List ℚ :=
  (arch.filter (fun a => a.is_functional)).map (fun a => a.score)

/-- The record returned by `archive.py` `SimpleArchive.get_statistics`.
Note the Python dict has keys `best_score` (a maximum) and
`average_score` but no minimum-score key. -/
structure Stats where
  total_agents : Nat
  functional_agents : Nat
  success_rate : ℚ
  best_score : ℚ
  average_score : ℚ
  score_history : List (Nat × ℚ)
deriving DecidableEq

/-- Embeds `archive.py` `SimpleArchive.get_statistics`: row counts, the ratio
`functional/total` guarded by `total > 0`, `MAX`/`AVG` over functional
scores each defaulted to `0.0` via `or 0.0`, and the
`(created_at, score)` series of functional agents ordered by creation
time ascending. -/
def get_statistics (arch : List Agent) : Stats :=
  let total_agents := arch.length
  let functional_agents := functionalCount arch
  { total_agents := total_agents
    functional_agents := functional_agents
    success_rate :=
      if 0 < total_agents then (functional_agents : ℚ) / total_agents else 0
    best_score := pyOrZero (sqlMaxQ (functionalScores arch))
    average_score := pyOrZero (sqlAvgQ (functionalScores arch))
    score_history :=
      (arch.enum.filter (fun p => p.2.is_functional)).map
        (fun p => (p.1, p.2.score)) }

/-- Embeds `archive.py` `SimpleArchive.save_agent`: inserts a new row whose
`AUTOINCREMENT` id is strictly larger than every existing id (modelled
as max existing id + 1), and returns the new id. -/
def save_agent (arch : List Agent) (code : String) (score : ℚ)
    (parent_id : Option Nat) (descr : String) (is_functional : Bool) :
    List Agent × Nat :=
  let new_id := (arch.map (fun a => a.id)).foldr max 0 + 1
  (arch ++ [⟨new_id, code, score, parent_id, descr, is_functional⟩], new_id)

/-! ## Benchmark loader (`swe_bench_loader.py`) -/

/-- The `{returncode, stdout, stderr}` triple of one `subprocess.run`
invocation. -/
structure ProcResult where
  returncode : Int
  stdout : String
  stderr : String
deriving DecidableEq

instance {ε α : Type} [DecidableEq ε] [DecidableEq α] :
    DecidableEq (Except ε α) := fun a b =>
  match a, b with
  | .ok x, .ok y =>
    if h : x = y then .isTrue (by rw [h])
    else .isFalse (fun hc => h (Except.ok.inj hc))
  | .ok _, .error _ => .isFalse (fun hc => Except.noConfusion hc)
  | .error _, .ok _ => .isFalse (fun hc => Except.noConfusion hc)
  | .error e, .error f =>
    if h : e = f then .isTrue (by rw [h])
    else .isFalse (fun hc => h (Except.error.inj hc))

/-- The dict returned by `swe_bench_loader.py` `SWEBenchLoader.run_tests`.
The early-return dicts carry a `reason` key but no `stdout`/`stderr`;
the normal-path dict carries `stdout`/`stderr` but no `reason` —
modelled with `Option` fields matching `.get` access with defaults. -/
structure TestResult where
  passed : Bool
  reason : Option String
  stdout : Option String
  stderr : Option String
deriving DecidableEq

/-- The part of the dict returned by `SWEBenchLoader.evaluate_patch`
that the evaluator consumes (`success`, `score`, `reason`); the
`test_output`/`test_errors` keys are dropped as no claim reads them. -/
structure EvalOutcome where
  success : Bool
  reason : String
  score : ℚ
deriving DecidableEq

/-- Embeds `swe_bench_loader.py` `SWEBenchLoader.evaluate_patch`, parameterized
by the oracle results of the external processes: `applyResult` is the
`git apply agent_patch.patch` process result, `testResult` what
`run_tests` would return.  The second component of the output records
whether `run_tests` (the test command) was invoked at all. -/
def evaluate_patch (applyResult : ProcResult) (testResult : TestResult) :
    EvalOutcome × Bool :=
  if applyResult.returncode ≠ 0 then
    ({ success := false
       reason := "Patch failed to apply: " ++ applyResult.stderr
       score := 0 }, false)
  else
    ({ success := testResult.passed
       reason := testResult.reason.getD "Tests completed"
       score := if testResult.passed then 1 else 0 }, true)

/-! ## Patch extractor (`evaluator.py`
`SWEBenchEvaluator.extract_patch_from_solution`) -/

/-- The literal regex pattern of strategy 1 in the source, the
`diff_pattern` raw string of six consecutive backticks with no
capturing group, so `re.findall` yields the matched text itself. -/
def diffPattern : String := "``````"

/-- Whether `pat` occurs as a contiguous run inside `l`
(`re.findall(pat, s)` on a pattern without metacharacters is non-empty
iff `pat` occurs in `s`). -/
def containsRun (pat : List Char) : List Char → Bool
  | [] => pat.isEmpty
  | c :: rest => pat.isPrefixOf (c :: rest) || containsRun pat rest

/-- Python `s.split('\n')`: split a character list at every newline;
the empty string yields one empty field. -/
def splitLines : List Char → List (List Char)
  | [] => [[]]
  | c :: rest =>
    if c = '\n' then [] :: splitLines rest
    else
      match splitLines rest with
      | l :: ls => (c :: l) :: ls
      | [] => [[c]]

/-- Python newline join of a list of lines. -/
def joinLines : List (List Char) → List Char
  | [] => []
  | [l] => l
  | l :: ls => l ++ '\n' :: joinLines ls

/-- A character Python's default `str.strip()` removes. -/
def pyIsSpace (c : Char) : Bool :=
  c = ' ' || c = '\t' || c = '\n' || c = '\r' || c = '\x0b' || c = '\x0c'

/-- Truthiness of Python `s.strip()`: the stripped string is empty iff
every character of `s` is whitespace. -/
def isBlank (s : String) : Bool :=
  s.toList.all pyIsSpace

/-- Strategy 2 of the extractor: scan the lines of the solution, switch
on at the first line starting with `diff --git`, and keep every line
from there on (the `in_diff` flag in the source never switches off). -/
def diffLines (solution : String) : List (List Char) :=
  (splitLines solution.toList).dropWhile
    (fun l => !(("diff --git".toList).isPrefixOf l))

/-- The body of the `try:` block of `extract_patch_from_solution`, in
the exception monad.  The four oracles are the external processes of
strategies 3 and 4: `git diff`, `git status --porcelain`, `git add -A`
(result ignored), `git diff --cached`; an `Except.error` models the
process invocation raising. -/
def extractBody (solution : String)
    (gitDiff gitStatus gitAdd gitDiffCached : Except String ProcResult) :
    Except String String := do
  -- Strategy 1: findall of the six-backtick `diff_pattern` literal
  if containsRun diffPattern.toList solution.toList then
    return diffPattern
  -- Strategy 2: lines from the first `diff --git` line to the end
  let diff_lines := diffLines solution
  if !diff_lines.isEmpty then
    return ⟨joinLines diff_lines⟩
  -- Strategy 3: `git diff` on the sandbox
  let result ← gitDiff
  if result.returncode = 0 && !(isBlank result.stdout) then
    return result.stdout
  -- Strategy 4: unstaged changes → `git add -A` then `git diff --cached`
  let status_result ← gitStatus
  if !(isBlank status_result.stdout) then
    let _ ← gitAdd
    let cached_result ← gitDiffCached
    if cached_result.returncode = 0 then
      return cached_result.stdout
  return ""

/-- Embeds `evaluator.py` `SWEBenchEvaluator.extract_patch_from_solution`: the
`try:` body with its catch-all `except` clause returning the empty
string. -/
def extract_patch_from_solution (solution : String)
    (gitDiff gitStatus gitAdd gitDiffCached : Except String ProcResult) :
    String :=
  match extractBody solution gitDiff gitStatus gitAdd gitDiffCached with
  | .ok s => s
  | .error _ => ""

/-! ## Evaluator (`evaluator.py` `SWEBenchEvaluator.evaluate_agent`) -/

/-- One benchmark instance (the fields the evaluator reads). -/
structure Instance where
  instance_id : String
  repo : String
deriving DecidableEq

/-- The oracle describing how one instance's evaluation behaves:
`setup` is `swe_bench.setup_repository` (returns the sandbox path or
raises), `solve` is the external `agent.solve_task` (returns the
solution text or raises), and `evalOutcome` is the result of
`swe_bench.evaluate_patch` on the extracted patch (patch extraction and
patch evaluation both catch their own exceptions, so at this level they
are total). -/
structure Behavior where
  setup : Except String String
  solve : Except String String
  evalOutcome : EvalOutcome

/-- If the processing of an instance raises, the text of the exception
(the `setup` stage first, then `solve`); `none` when neither raises. -/
def instanceException (b : Behavior) : Option String :=
  match b.setup with
  | .error e => some e
  | .ok _ =>
    match b.solve with
    | .error e => some e
    | .ok _ => none

/-- The set of sandbox directories currently existing on disk. -/
def SandboxSet : Type := String → Bool

/-- One recorded `EvaluationResult` (the fields the claims read; the
timing and truncated-solution fields are dropped). -/
structure InstanceResult where
  instance_id : String
  success : Bool
  score : ℚ
  reason : String
deriving DecidableEq

/-- The per-instance body of `evaluate_agent` (the `try`/`except` around
lines 49–98): on an exception from `setup` or `solve`, append a
zero-score result with reason `"Exception: " ++ text` and leave the
sandbox set as it stands; otherwise record the evaluation outcome and
then remove the sandbox directory if it exists. -/
def processInstance (inst : Instance) (b : Behavior)
    (sandboxes : SandboxSet) : InstanceResult × SandboxSet :=
  match b.setup with
  | .error e =>
    (⟨inst.instance_id, false, 0, "Exception: " ++ e⟩, sandboxes)
  | .ok repo_dir =>
    -- `setup_repository` wipes any pre-existing copy and clones afresh,
    -- so after a successful setup the directory exists.
    let sandboxes₁ : SandboxSet := fun p => p == repo_dir || sandboxes p
    match b.solve with
    | .error e =>
      (⟨inst.instance_id, false, 0, "Exception: " ++ e⟩, sandboxes₁)
    | .ok _solution =>
      let ev := b.evalOutcome
      let result : InstanceResult :=
        ⟨inst.instance_id, ev.success, ev.score, ev.reason⟩
      -- `if Path(repo_dir).exists(): shutil.rmtree(repo_dir)`
      let sandboxes₂ : SandboxSet :=
        if sandboxes₁ repo_dir then
          fun p => if p == repo_dir then false else sandboxes₁ p
        else sandboxes₁
      (result, sandboxes₂)

/-- The `for i in range(num_tasks)` loop of `evaluate_agent`: process
the instances in order, threading the sandbox set and collecting one
result per instance. -/
def runInstances : List Instance → (Instance → Behavior) → SandboxSet →
    List InstanceResult × SandboxSet
  | [], _, sandboxes => ([], sandboxes)
  | inst :: rest, behav, sandboxes =>
    let step := processInstance inst (behav inst) sandboxes
    let next := runInstances rest behav step.2
    (step.1 :: next.1, next.2)

/-- One entry of `results_history` (`evaluate_agent` lines 103–111; the
wall-clock timestamp is dropped). -/
structure EvaluationRun where
  num_tasks : Nat
  passed : Nat
  score : ℚ
  results : List InstanceResult
deriving DecidableEq

/-- Embeds `evaluator.py` `SWEBenchEvaluator.evaluate_agent`: early return
`0.0` (without touching the history) when no instances are loaded;
otherwise clamp the task count to the available instances, run them in
loaded order, score `passed / num_tasks` (0 when `num_tasks` is 0) and
append the run to the history.  Returns
`(score, new history, new sandbox set)`. -/
def evaluate_agent (instances : List Instance) (behav : Instance → Behavior)
    (num_tasks : Nat) (history : List EvaluationRun)
    (sandboxes : SandboxSet) : ℚ × List EvaluationRun × SandboxSet :=
  if instances.isEmpty then (0, history, sandboxes)
  else
    let n := min num_tasks instances.length
    let run := runInstances (instances.take n) behav sandboxes
    let passed := (run.1.filter (fun r => r.success)).length
    let score : ℚ := if 0 < n then (passed : ℚ) / n else 0
    (score, history ++ [⟨n, passed, score, run.1⟩], run.2)

/-- The dict returned by `SWEBenchEvaluator.get_improvement_metrics`:
the insufficient-data early return carries only the first two keys —
modelled with `Option` fields for the remaining three. -/
structure Metrics where
  improvement : ℚ
  trend : String
  recent_avg : Option ℚ
  earlier_avg : Option ℚ
  total_evaluations : Option Nat
deriving DecidableEq

/-- The inline conditional
`"improving" if improvement > 0.01 else "declining" if improvement < -0.01 else "stable"`
of `get_improvement_metrics`. -/
def trendOf (improvement : ℚ) : String :=
  if 1/100 < improvement then "improving"
  else if improvement < -(1/100) then "declining"
  else "stable"

/-- Embeds `evaluator.py` `SWEBenchEvaluator.get_improvement_metrics`: with
fewer than 2 recorded runs, report insufficient data; otherwise compare
the mean score of the last 5 runs (`history[-5:]`) against the mean of
`history[-10:-5]` when at least 10 runs exist, and against the single
most recent run's score (`history[-1]`) otherwise, classifying the
trend with a ±0.01 threshold. -/
def get_improvement_metrics (history : List EvaluationRun) : Metrics :=
  if history.length < 2 then
    ⟨0, "insufficient_data", none, none, none⟩
  else
    let recent_scores :=
      (history.drop (history.length - 5)).map (fun r => r.score)
    let earlier_scores :=
      if 10 ≤ history.length then
        ((history.drop (history.length - 10)).take 5).map (fun r => r.score)
      else
        [(history.getLast?).elim 0 (fun r => r.score)]
    let recent_avg := recent_scores.sum / recent_scores.length
    let earlier_avg := earlier_scores.sum / earlier_scores.length
    let improvement := recent_avg - earlier_avg
    ⟨improvement, trendOf improvement, some recent_avg, some earlier_avg,
      some history.length⟩

/-! ## Concrete fixtures used by counterexamples and witnesses -/

/-- Two functional agents: the earlier-created one has the higher score. -/
def agA : Agent := ⟨1, "a", 2, none, "", true⟩

/-- See `agA`. -/
def agB : Agent := ⟨2, "b", 1, none, "", true⟩

/-- An archive whose creation order disagrees with its score order. -/
def arch2 : List Agent := [agA, agB]

/-- Two functional agents with scores 2 and 4 (minimum 2). -/
def archC7 : List Agent :=
  [⟨1, "a", 2, none, "", true⟩, ⟨2, "b", 4, none, "", true⟩]

/-- A three-agent parent chain 3 → 2 → 1 respecting the insertion
invariant. -/
def archL : List Agent :=
  [⟨1, "r", 1, none, "", true⟩, ⟨2, "c", 1, some 1, "", true⟩,
   ⟨3, "g", 1, some 2, "", true⟩]

/-- An evaluation-history entry carrying only a score. -/
def mkRun (s : ℚ) : EvaluationRun := ⟨0, 0, s, []⟩

/-- Seven runs: the two oldest scored 0, the five most recent scored 1. -/
def hist7 : List EvaluationRun :=
  [mkRun 0, mkRun 0, mkRun 1, mkRun 1, mkRun 1, mkRun 1, mkRun 1]

/-- A solution whose fenced code block contains a diff; the diff header
line also makes strategy 2 applicable. -/
def sol3 : String :=
  "```diff\ndiff --git a/f.txt b/f.txt\n--- a/f.txt\n+++ b/f.txt\n```"

/-- A process oracle that succeeds with empty output. -/
def okProc : Except String ProcResult := Except.ok ⟨0, "", ""⟩

/-- A process oracle that raises. -/
def errProc : Except String ProcResult := Except.error "boom"

/-- A solution with no fenced block and no diff header line. -/
def plainSol : String := "no patch here"

/-- A benchmark instance fixture. -/
def inst0 : Instance := ⟨"inst-0", "r/a"⟩

/-- An evaluation outcome on which the tests passed. -/
def passOutcome : EvalOutcome := ⟨true, "Tests completed", 1⟩

/-- A behavior whose every stage succeeds, sandboxed at `"sb0"`. -/
def okB : Behavior := ⟨.ok "sb0", .ok "soln", passOutcome⟩

/-- A behavior whose sandbox setup succeeds and whose agent solve call
then raises. -/
def leakB : Behavior := ⟨.ok "sb0", .error "agent crashed", passOutcome⟩

/-- No sandbox directories exist initially. -/
def emptySB : SandboxSet := fun _ => false

/-! ## Helper lemmas -/

theorem length_get_all_agents (arch : List Agent) :
    (get_all_agents arch true).length = functionalCount arch := by
  simp [get_all_agents, functionalCount]

theorem scoresDesc_of_sorted :
    ∀ l : List Agent, List.Sorted scoreGe l → scoresDesc l = true := by
  intro l h
  induction l with
  | nil => rfl
  | cons a t ih =>
    cases t with
    | nil => rfl
    | cons b r =>
      have hab : scoreGe a b := List.rel_of_sorted_cons h b (by simp)
      have ht : List.Sorted scoreGe (b :: r) := h.of_cons
      simp [scoresDesc, ih ht]
      exact hab

/-- Claim C2, counterexample: with two functional agents — created
first with score 2, created second with score 1 — `select_parents 3`
returns them in creation-time-descending order `[score 1, score 2]`,
which is not sorted by score descending (the claimed count
`min k functionalCount` does hold). -/
theorem select_parents_underfull_not_sorted :
    select_parents arch2 3 = [agB, agA] ∧
    scoresDesc (select_parents arch2 3) = false ∧
    (select_parents arch2 3).length = min 3 (functionalCount arch2) := by
  refine ⟨by decide, by decide, by decide⟩

/-- Claim C2, amended: `select_parents k` always returns exactly
`min k functionalCount` variants; the result is sorted by score
descending when at least `k` functional variants exist, while with
fewer than `k` it is all functional variants in creation-time
descending order (not sorted by score). -/
theorem select_parents_spec (arch : List Agent) (k : Nat) :
    (select_parents arch k).length = min k (functionalCount arch) ∧
    (k ≤ functionalCount arch → scoresDesc (select_parents arch k) = true) ∧
    (functionalCount arch < k →
      select_parents arch k = get_all_agents arch true) := by
  have hlen := length_get_all_agents arch
  unfold select_parents
  by_cases h0 : (get_all_agents arch true).isEmpty
  · have h0' : get_all_agents arch true = [] := List.isEmpty_iff.mp h0
    have hfc : functionalCount arch = 0 := by rw [← hlen, h0']; rfl
    refine ⟨?_, ?_, ?_⟩
    · simp [h0, hfc]
    · intro _
      simp [h0, scoresDesc]
    · intro _
      simp [h0, h0']
  · by_cases h1 : (get_all_agents arch true).length < k
    · refine ⟨?_, ?_, ?_⟩
      · simp [h0, h1]
        omega
      · intro hk
        exfalso
        omega
      · intro _
        simp [h0, h1]
    · have h1' : k ≤ (get_all_agents arch true).length := le_of_not_lt h1
      refine ⟨?_, ?_, ?_⟩
      · simp [h0, h1, List.length_take, List.length_insertionSort]
        omega
      · intro _
        simp [h0, h1]
        exact scoresDesc_of_sorted _
          (List.Pairwise.sublist (List.take_sublist _ _)
            (List.sorted_insertionSort scoreGe _))
      · intro hk
        exfalso
        omega

/-- Claim C2, witness: on the two-agent archive with `k = 1` the count
is `min 1 2 = 1` and the returned singleton is sorted. -/
theorem select_parents_spec_witness :
    (select_parents arch2 1).length = min 1 (functionalCount arch2) ∧
    scoresDesc (select_parents arch2 1) = true :=
  ⟨(select_parents_spec arch2 1).1,
   (select_parents_spec arch2 1).2.1 (by decide)⟩

theorem get_agent_eq {arch : List Agent} {i : Nat} {ag : Agent}
    (h : get_agent arch i = some ag) : ag ∈ arch ∧ ag.id = i := by
  refine ⟨List.mem_of_find?_eq_some h, ?_⟩
  have hp := List.find?_some h
  simpa using hp

theorem parent_lt_of_get_agent {arch : List Agent}
    (hpd : parentDecreasing arch) {i p : Nat} {ag : Agent}
    (hga : get_agent arch i = some ag) (hp : ag.parent_id = some p) :
    p < i := by
  obtain ⟨hmem, hid⟩ := get_agent_eq hga
  have h := hpd ag hmem
  simp [parentLt, hp] at h
  omega

theorem lineageAux_stable (arch : List Agent) (hpd : parentDecreasing arch) :
    ∀ i fuel₁ fuel₂, i < fuel₁ → i < fuel₂ →
      lineageAux arch fuel₁ i = lineageAux arch fuel₂ i := by
  intro i
  induction i using Nat.strong_induction_on with
  | _ i ih =>
    intro fuel₁ fuel₂ h₁ h₂
    match fuel₁, fuel₂ with
    | f₁ + 1, f₂ + 1 =>
      simp only [lineageAux]
      cases hga : get_agent arch i with
      | none => rfl
      | some ag =>
        dsimp only
        cases hp : ag.parent_id with
        | none => rfl
        | some p =>
          have hplt : p < i := parent_lt_of_get_agent hpd hga hp
          dsimp only
          congr 1
          exact ih p hplt f₁ f₂ (by omega) (by omega)

/-- Claim C6: under the insertion invariant (parent ids strictly
precede child ids, which rules out cycles), `get_lineage` terminates —
any fuel beyond the starting id computes the same list — and the list
it returns is the chain from the given id towards the root, in that
order, stopping silently at the root or at the first missing parent id
(returning the prefix found so far). -/
theorem get_lineage_spec (arch : List Agent) (agent_id : Nat)
    (hpd : parentDecreasing arch) :
    (∀ fuel, agent_id < fuel →
      lineageAux arch fuel agent_id = get_lineage arch agent_id) ∧
    IsLineageChain arch agent_id (get_lineage arch agent_id) := by
  constructor
  · intro fuel hf
    exact lineageAux_stable arch hpd agent_id fuel (agent_id + 1) hf
      (Nat.lt_succ_self _)
  · induction agent_id using Nat.strong_induction_on with
    | _ i ih =>
      unfold get_lineage
      simp only [lineageAux]
      cases hga : get_agent arch i with
      | none => exact IsLineageChain.missing i hga
      | some ag =>
        dsimp only
        cases hp : ag.parent_id with
        | none => exact IsLineageChain.root i ag hga hp
        | some p =>
          have hplt : p < i := parent_lt_of_get_agent hpd hga hp
          have hstep : lineageAux arch i p = get_lineage arch p :=
            lineageAux_stable arch hpd p i (p + 1) hplt (Nat.lt_succ_self _)
          dsimp only
          rw [hstep]
          exact IsLineageChain.step i ag p _ hga hp (ih p hplt)

/-- Claim C6, witness: on a three-link chain the lineage is returned
root-ward in order, and on a chain whose intermediate parent id 3 is
absent the prefix found so far is returned. -/
theorem get_lineage_spec_witness :
    get_lineage archL 3 =
      [⟨3, "g", 1, some 2, "", true⟩, ⟨2, "c", 1, some 1, "", true⟩,
       ⟨1, "r", 1, none, "", true⟩] ∧
    IsLineageChain archL 3 (get_lineage archL 3) ∧
    lineageAux archL 10 3 = get_lineage archL 3 ∧
    IsLineageChain [⟨2, "x", 1, some 1, "", true⟩, ⟨4, "y", 1, some 3, "", true⟩] 4
      (get_lineage [⟨2, "x", 1, some 1, "", true⟩, ⟨4, "y", 1, some 3, "", true⟩] 4) :=
  ⟨by decide, (get_lineage_spec archL 3 (by decide)).2,
   (get_lineage_spec archL 3 (by decide)).1 10 (by decide),
   (get_lineage_spec [⟨2, "x", 1, some 1, "", true⟩,
      ⟨4, "y", 1, some 3, "", true⟩] 4 (by decide)).2⟩

theorem mem_id_le_fold (arch : List Agent) (a : Agent) (h : a ∈ arch) :
    a.id ≤ (arch.map (fun x => x.id)).foldr max 0 := by
  induction arch with
  | nil => cases h
  | cons b t ih =>
    rcases List.mem_cons.mp h with hb | ht
    · subst hb
      exact le_max_left _ _
    · exact le_trans (ih ht) (le_max_right _ _)

/-- Supporting fact for claim C6 (from `save_agent`): inserting a new
agent whose parent, when given, is the id of an agent already stored
preserves the insertion invariant, since the `AUTOINCREMENT` id is
strictly larger than every stored id. -/
theorem save_agent_preserves_invariant (arch : List Agent) (code : String)
    (score : ℚ) (parent_id : Option Nat) (descr : String)
    (is_functional : Bool) (hpd : parentDecreasing arch)
    (hparent : ∀ p, parent_id = some p → ∃ a ∈ arch, a.id = p) :
    parentDecreasing
      (save_agent arch code score parent_id descr is_functional).1 := by
  intro a ha
  unfold save_agent at ha
  rcases List.mem_append.mp ha with hold | hnew
  · exact hpd a hold
  · have ha' : a = ⟨(arch.map (fun x => x.id)).foldr max 0 + 1, code, score,
        parent_id, descr, is_functional⟩ := by simpa using hnew
    subst ha'
    unfold parentLt
    cases hp : parent_id with
    | none => trivial
    | some p =>
      obtain ⟨b, hb, hbid⟩ := hparent p hp
      have := mem_id_le_fold arch b hb
      simp only []
      omega

theorem pyOrZero_some (q : ℚ) : pyOrZero (some q) = q := by
  by_cases h : q = 0 <;> simp [pyOrZero, h]

theorem foldlMax_mem : ∀ (xs : List ℚ) (x : ℚ), xs.foldl max x ∈ x :: xs := by
  intro xs
  induction xs with
  | nil => intro x; simp
  | cons z zs ih =>
    intro x
    simp only [List.foldl_cons]
    rcases List.mem_cons.mp (ih (max x z)) with h1 | h2
    · rcases max_choice x z with hx | hz
      · rw [h1, hx]
        exact List.mem_cons_self _ _
      · rw [h1, hz]
        exact List.mem_cons_of_mem _ (List.mem_cons_self _ _)
    · exact List.mem_cons_of_mem _ (List.mem_cons_of_mem _ h2)

theorem le_foldlMax : ∀ (xs : List ℚ) (x y : ℚ), y ∈ x :: xs →
    y ≤ xs.foldl max x := by
  intro xs
  induction xs with
  | nil =>
    intro x y h
    simp at h
    simp [h]
  | cons z zs ih =>
    intro x y h
    simp only [List.foldl_cons]
    rcases List.mem_cons.mp h with h1 | h2
    · subst h1
      exact le_trans (le_max_left _ _) (ih _ _ (List.mem_cons_self _ _))
    · rcases List.mem_cons.mp h2 with h3 | h4
      · subst h3
        exact le_trans (le_max_right _ _) (ih _ _ (List.mem_cons_self _ _))
      · exact ih (max x z) y (List.mem_cons_of_mem _ h4)

theorem enumFrom_filter_map (p : Agent → Bool) (f : Agent → ℚ) :
    ∀ (l : List Agent) (n : Nat),
      ((List.enumFrom n l).filter (fun q => p q.2)).map (fun q => f q.2) =
        (l.filter p).map f := by
  intro l
  induction l with
  | nil => intro n; rfl
  | cons a t ih =>
    intro n
    simp only [List.enumFrom_cons, List.filter_cons]
    by_cases hpa : p a
    · simp [hpa, ih]
    · simp [hpa, ih]

theorem pairwise_fst_lt_enumFrom :
    ∀ (l : List Agent) (n : Nat),
      List.Pairwise (fun q r : Nat × Agent => q.1 < r.1)
        (List.enumFrom n l) := by
  intro l
  induction l with
  | nil => intro n; simp
  | cons a t ih =>
    intro n
    simp only [List.enumFrom_cons]
    constructor
    · intro q hq
      obtain ⟨i, x⟩ := q
      have hle := List.mem_enumFrom hq
      simp only []
      omega
    · exact ih (n + 1)

/-- Claim C7, counterexample: on an archive of two functional agents
with scores 2 and 4, the minimum functional score is 2, yet no
statistic of the returned record equals 2 — `get_statistics` reports
the maximum (`best_score`) and the average but no minimum, so the
claimed min/avg/max triple is not returned. -/
theorem get_statistics_no_minimum :
    get_statistics archC7 = ⟨2, 2, 1, 4, 3, [(0, 2), (1, 4)]⟩ ∧
    functionalScores archC7 = [2, 4] ∧
    (2 : ℚ) < 4 ∧
    (get_statistics archC7).success_rate ≠ 2 ∧
    (get_statistics archC7).best_score ≠ 2 ∧
    (get_statistics archC7).average_score ≠ 2 := by
  have h : get_statistics archC7 = ⟨2, 2, 1, 4, 3, [(0, 2), (1, 4)]⟩ := by
    norm_num [get_statistics, functionalCount, functionalScores, pyOrZero,
      sqlMaxQ, sqlAvgQ, archC7, List.enum, List.enumFrom]
  refine ⟨h, by decide, by norm_num, ?_, ?_, ?_⟩ <;> rw [h] <;> norm_num

/-- Claim C7, amended: `get_statistics` returns the total and
functional counts, a success rate of `functional/total` (0 when the
archive is empty), the **maximum** and the average score among
functional variants — no minimum is reported — both defaulting to 0
when no functional variant exists, and the score-over-time series of
the functional variants ordered by creation time. -/
theorem get_statistics_spec (arch : List Agent) :
    (get_statistics arch).total_agents = arch.length ∧
    (get_statistics arch).functional_agents = functionalCount arch ∧
    (arch.length = 0 → (get_statistics arch).success_rate = 0) ∧
    (0 < arch.length →
      (get_statistics arch).success_rate * arch.length =
        functionalCount arch) ∧
    (functionalScores arch = [] →
      (get_statistics arch).best_score = 0 ∧
      (get_statistics arch).average_score = 0) ∧
    (functionalScores arch ≠ [] →
      (get_statistics arch).best_score ∈ functionalScores arch ∧
      ∀ x ∈ functionalScores arch, x ≤ (get_statistics arch).best_score) ∧
    (functionalScores arch ≠ [] →
      (get_statistics arch).average_score * (functionalScores arch).length =
        (functionalScores arch).sum) ∧
    (get_statistics arch).score_history.map Prod.snd =
      functionalScores arch ∧
    List.Pairwise (fun q r => q.1 < r.1)
      (get_statistics arch).score_history := by
  refine ⟨rfl, rfl, ?_, ?_, ?_, ?_, ?_, ?_, ?_⟩
  · intro h
    simp [get_statistics, h]
  · intro h
    simp only [get_statistics, if_pos h]
    exact div_mul_cancel₀ _ (Nat.cast_ne_zero.mpr (by omega))
  · intro h
    simp [get_statistics, h, sqlMaxQ, sqlAvgQ, pyOrZero]
  · intro h
    rcases hs : functionalScores arch with _ | ⟨x, xs⟩
    · exact absurd hs h
    · have hbest : (get_statistics arch).best_score = xs.foldl max x := by
        simp only [get_statistics, hs, sqlMaxQ]
        exact pyOrZero_some _
      simp only [hbest, hs]
      exact ⟨foldlMax_mem xs x, fun y hy => le_foldlMax xs x y hy⟩
  · intro h
    have hlen : ((functionalScores arch).length : ℚ) ≠ 0 :=
      Nat.cast_ne_zero.mpr (by
        intro h0
        exact h (List.length_eq_zero.mp h0))
    have havg : (get_statistics arch).average_score =
        (functionalScores arch).sum / (functionalScores arch).length := by
      simp only [get_statistics, sqlAvgQ,
        List.isEmpty_iff, if_neg h]
      exact pyOrZero_some _
    rw [havg]
    exact div_mul_cancel₀ _ hlen
  · simp only [get_statistics, List.map_map]
    have : (Prod.snd ∘ fun p : Nat × Agent => (p.1, p.2.score)) =
        fun p : Nat × Agent => p.2.score := rfl
    rw [this, List.enum]
    exact enumFrom_filter_map (fun a => a.is_functional) (fun a => a.score)
      arch 0
  · simp only [get_statistics]
    apply List.pairwise_map.mpr
    exact List.Pairwise.filter _ (pairwise_fst_lt_enumFrom arch 0)

/-- Claim C7, witness: the amended statement evaluated on the two-agent
archive with scores 2 and 4. -/
theorem get_statistics_spec_witness :
    (get_statistics archC7).total_agents = archC7.length ∧
    (get_statistics archC7).success_rate * archC7.length =
      functionalCount archC7 ∧
    (get_statistics archC7).best_score ∈ functionalScores archC7 ∧
    (get_statistics archC7).score_history.map Prod.snd =
      functionalScores archC7 :=
  ⟨(get_statistics_spec archC7).1,
   (get_statistics_spec archC7).2.2.2.1 (by decide),
   ((get_statistics_spec archC7).2.2.2.2.2.1 (by decide)).1,
   (get_statistics_spec archC7).2.2.2.2.2.2.2.1⟩

theorem trendOf_improving (i : ℚ) : trendOf i = "improving" ↔ 1/100 < i := by
  unfold trendOf
  split
  · next h1 => exact ⟨fun _ => h1, fun _ => rfl⟩
  · next h1 =>
    split
    · next h2 =>
      exact ⟨fun hc => absurd hc (by decide), fun hc => absurd hc h1⟩
    · next h2 =>
      exact ⟨fun hc => absurd hc (by decide), fun hc => absurd hc h1⟩

theorem trendOf_declining (i : ℚ) : trendOf i = "declining" ↔ i < -(1/100) := by
  unfold trendOf
  split
  · next h1 =>
    exact ⟨fun hc => absurd hc (by decide), fun hc => by linarith⟩
  · next h1 =>
    split
    · next h2 => exact ⟨fun _ => h2, fun _ => rfl⟩
    · next h2 =>
      exact ⟨fun hc => absurd hc (by decide), fun hc => absurd hc h2⟩

theorem trendOf_stable (i : ℚ) :
    trendOf i = "stable" ↔ (-(1/100) ≤ i ∧ i ≤ 1/100) := by
  unfold trendOf
  split
  · next h1 =>
    exact ⟨fun hc => absurd hc (by decide), fun hc => by linarith [hc.2]⟩
  · next h1 =>
    split
    · next h2 =>
      exact ⟨fun hc => absurd hc (by decide), fun hc => by linarith [hc.1]⟩
    · next h2 =>
      exact ⟨fun _ => by constructor <;> linarith, fun _ => rfl⟩

/-- Claim C4, counterexample: on a 7-run history scoring
`[0, 0, 1, 1, 1, 1, 1]`, the mean of the 5 most recent runs is 1 and
the mean of the 2 preceding runs is 0, so the claimed computation gives
improvement 1 (above the +0.01 threshold, hence "improving"); the code
instead baselines on the single most recent run's score whenever the
history is shorter than 10 runs and reports improvement 0 and trend
"stable". -/
theorem improvement_metrics_cex :
    get_improvement_metrics hist7 = ⟨0, "stable", some 1, some 1, some 7⟩ ∧
    ((hist7.drop 2).map (fun r => r.score)).sum / 5 -
      ((hist7.take 2).map (fun r => r.score)).sum / 2 = 1 ∧
    (1/100 : ℚ) < 1 ∧ ("stable" : String) ≠ "improving" ∧ (0 : ℚ) ≠ 1 := by
  refine ⟨?_, ?_, by norm_num, by decide, by norm_num⟩
  · norm_num [get_improvement_metrics, trendOf, hist7, mkRun]
  · norm_num [hist7, mkRun]

/-- Claim C4, amended: with fewer than 2 runs `get_improvement_metrics`
reports insufficient data; otherwise the recent average is the mean of
the (up to) 5 most recent run scores, the baseline is the mean of runs
`[-10:-5]` when at least 10 runs exist but is the single most recent
run's score when the history is shorter than 10, the improvement is
their difference, and the trend is classified with a ±0.01
threshold. -/
theorem get_improvement_metrics_spec (hist : List EvaluationRun) :
    (hist.length < 2 →
      get_improvement_metrics hist =
        ⟨0, "insufficient_data", none, none, none⟩) ∧
    (2 ≤ hist.length →
      (get_improvement_metrics hist).total_evaluations = some hist.length ∧
      (get_improvement_metrics hist).recent_avg =
        some ((((hist.drop (hist.length - 5)).map (fun r => r.score)).sum) /
          (min 5 hist.length : ℚ)) ∧
      (10 ≤ hist.length →
        (get_improvement_metrics hist).earlier_avg =
          some (((((hist.drop (hist.length - 10)).take 5).map
            (fun r => r.score)).sum) / 5)) ∧
      (hist.length < 10 → ∀ lastRun, hist.getLast? = some lastRun →
        (get_improvement_metrics hist).earlier_avg = some lastRun.score) ∧
      (∀ ra ea, (get_improvement_metrics hist).recent_avg = some ra →
        (get_improvement_metrics hist).earlier_avg = some ea →
        (get_improvement_metrics hist).improvement = ra - ea) ∧
      ((get_improvement_metrics hist).trend = "improving" ↔
        1/100 < (get_improvement_metrics hist).improvement) ∧
      ((get_improvement_metrics hist).trend = "declining" ↔
        (get_improvement_metrics hist).improvement < -(1/100)) ∧
      ((get_improvement_metrics hist).trend = "stable" ↔
        (-(1/100) ≤ (get_improvement_metrics hist).improvement ∧
         (get_improvement_metrics hist).improvement ≤ 1/100))) := by
  constructor
  · intro h
    simp [get_improvement_metrics, h]
  · intro h
    have hlt : ¬ hist.length < 2 := by omega
    rw [get_improvement_metrics, if_neg hlt]
    dsimp only
    refine ⟨rfl, ?_, ?_, ?_, ?_, trendOf_improving _, trendOf_declining _,
      trendOf_stable _⟩
    · have hrl : (((hist.drop (hist.length - 5)).map
          (fun r => r.score)).length : ℚ) =
          ((min 5 hist.length : Nat) : ℚ) := by
        norm_cast
        simp [List.length_drop]
        omega
      rw [hrl]
      norm_cast
    · intro h10
      rw [if_pos h10]
      have hel : ((((hist.drop (hist.length - 10)).take 5).map
          (fun r => r.score)).length : ℚ) = 5 := by
        norm_cast
        simp [List.length_take, List.length_drop]
        omega
      rw [hel]
    · intro h10 lastRun hlast
      rw [if_neg (by omega : ¬ 10 ≤ hist.length)]
      simp [hlast]
    · intro ra ea hra hea
      injection hra with hra
      injection hea with hea
      rw [← hra, ← hea]

/-- Claim C4, witness: the amended statement evaluated on the 7-run
history — the baseline is the most recent run's score and the trend is
classified against the improvement value. -/
theorem get_improvement_metrics_spec_witness :
    (get_improvement_metrics hist7).total_evaluations = some 7 ∧
    (get_improvement_metrics hist7).earlier_avg = some (mkRun 1).score ∧
    ((get_improvement_metrics hist7).trend = "stable" ↔
      (-(1/100) ≤ (get_improvement_metrics hist7).improvement ∧
       (get_improvement_metrics hist7).improvement ≤ 1/100)) :=
  ⟨((get_improvement_metrics_spec hist7).2 (by decide)).1,
   ((get_improvement_metrics_spec hist7).2 (by decide)).2.2.2.1 (by decide)
     (mkRun 1) (by decide),
   ((get_improvement_metrics_spec hist7).2 (by decide)).2.2.2.2.2.2.2⟩

theorem processInstance_instance_id (inst : Instance) (b : Behavior)
    (sb : SandboxSet) :
    ((processInstance inst b sb).1).instance_id = inst.instance_id := by
  obtain ⟨bs, bv, bev⟩ := b
  cases bs with
  | error e => rfl
  | ok rd =>
    cases bv with
    | error e => rfl
    | ok s => rfl

theorem processInstance_exception {b : Behavior} {e : String}
    (inst : Instance) (sb : SandboxSet) (h : instanceException b = some e) :
    (processInstance inst b sb).1 =
      ⟨inst.instance_id, false, 0, "Exception: " ++ e⟩ := by
  obtain ⟨bs, bv, bev⟩ := b
  cases bs with
  | error e' =>
    simp [instanceException] at h
    subst h
    rfl
  | ok rd =>
    cases bv with
    | error e' =>
      simp [instanceException] at h
      subst h
      rfl
    | ok s => simp [instanceException] at h

theorem runInstances_ids :
    ∀ (l : List Instance) (behav : Instance → Behavior) (sb : SandboxSet),
      ((runInstances l behav sb).1).map (fun r => r.instance_id) =
        l.map (fun i => i.instance_id) := by
  intro l behav
  induction l with
  | nil => intro sb; rfl
  | cons a t ih =>
    intro sb
    simp only [runInstances, List.map_cons]
    exact congrArg₂ _ (processInstance_instance_id a (behav a) sb) (ih _)

theorem runInstances_length (l : List Instance) (behav : Instance → Behavior)
    (sb : SandboxSet) :
    ((runInstances l behav sb).1).length = l.length := by
  have h := congrArg List.length (runInstances_ids l behav sb)
  simpa using h

theorem runInstances_exception_at :
    ∀ (l : List Instance) (behav : Instance → Behavior) (sb : SandboxSet)
      (j : Nat) (inst : Instance) (e : String),
      l[j]? = some inst → instanceException (behav inst) = some e →
      ((runInstances l behav sb).1)[j]? =
        some ⟨inst.instance_id, false, 0, "Exception: " ++ e⟩ := by
  intro l behav
  induction l with
  | nil =>
    intro sb j inst e hj
    simp at hj
  | cons a t ih =>
    intro sb j inst e hj he
    cases j with
    | zero =>
      simp at hj
      subst hj
      simp only [runInstances, List.getElem?_cons_zero, Option.some.injEq]
      exact processInstance_exception a sb he
    | succ k =>
      simp only [List.getElem?_cons_succ] at hj
      simp only [runInstances, List.getElem?_cons_succ]
      exact ih _ k inst e hj he

theorem evaluate_agent_nonempty (instances : List Instance)
    (behav : Instance → Behavior) (n : Nat) (hist : List EvaluationRun)
    (sb : SandboxSet) (h : instances ≠ []) :
    evaluate_agent instances behav n hist sb =
      ((if 0 < min n instances.length then
          ((((runInstances (instances.take (min n instances.length)) behav
              sb).1).filter (fun r => r.success)).length : ℚ) /
            (min n instances.length)
        else 0),
       hist ++ [⟨min n instances.length,
         (((runInstances (instances.take (min n instances.length)) behav
            sb).1).filter (fun r => r.success)).length,
         (if 0 < min n instances.length then
            ((((runInstances (instances.take (min n instances.length)) behav
                sb).1).filter (fun r => r.success)).length : ℚ) /
              (min n instances.length)
          else 0),
         (runInstances (instances.take (min n instances.length)) behav
           sb).1⟩],
       (runInstances (instances.take (min n instances.length)) behav
         sb).2) := by
  unfold evaluate_agent
  rw [if_neg (by simpa [List.isEmpty_iff] using h)]

/-- Claim C1, counterexample: starting with no sandboxes, evaluating a
single instance whose sandbox setup succeeds (directory `"sb0"`) and
whose agent solve call then raises leaves `"sb0"` existing after the
whole evaluation: the sandbox is not removed on the exception exit
path. -/
theorem sandbox_removed_every_path_cex :
    leakB.setup = Except.ok "sb0" ∧
    emptySB "sb0" = false ∧
    (evaluate_agent [inst0] (fun _ => leakB) 1 [] emptySB).2.2 "sb0" = true :=
  ⟨rfl, rfl, by decide⟩

/-- Claim C1, amended: the sandbox directory is removed at the end of
an instance's evaluation on the non-exception path (whether the patch
evaluation reported success or failure); on a path where an exception
is raised after the sandbox was created — such as the agent's solve
call raising — the cleanup is skipped and the sandbox survives. -/
theorem processInstance_sandbox_cleanup (inst : Instance) (b : Behavior)
    (sb : SandboxSet) (repo_dir : String) :
    (∀ sol, b.setup = .ok repo_dir → b.solve = .ok sol →
      ((processInstance inst b sb).2) repo_dir = false) ∧
    (∀ e, b.setup = .ok repo_dir → b.solve = .error e →
      ((processInstance inst b sb).2) repo_dir = true) := by
  obtain ⟨bs, bv, bev⟩ := b
  constructor
  · intro sol h1 h2
    cases h1
    cases h2
    simp [processInstance]
  · intro e h1 h2
    cases h1
    cases h2
    simp [processInstance]

/-- Claim C1, witness: the cleanup happens on the all-stages-succeed
behavior and is skipped on the solve-raises behavior. -/
theorem processInstance_sandbox_cleanup_witness :
    (processInstance inst0 okB emptySB).2 "sb0" = false ∧
    (processInstance inst0 leakB emptySB).2 "sb0" = true :=
  ⟨(processInstance_sandbox_cleanup inst0 okB emptySB "sb0").1 "soln" rfl rfl,
   (processInstance_sandbox_cleanup inst0 leakB emptySB "sb0").2
     "agent crashed" rfl rfl⟩

/-- Claim C8, counterexample: with 1 loaded instance that passes and a
requested task count of 2, the aggregate score is 1 (passed divided by
`min(requested, available) = 1`), not the claimed `passed/requested =
1/2`; moreover with zero loaded instances the run is not appended to
the history at all. -/
theorem evaluate_agent_score_cex :
    (evaluate_agent [inst0] (fun _ => okB) 2 [] emptySB).1 = 1 ∧
    (1 : ℚ) ≠ 1/2 ∧
    (evaluate_agent [] (fun _ => okB) 2 [] emptySB).2.1 = [] := by
  refine ⟨?_, by norm_num, by decide⟩
  norm_num [evaluate_agent, runInstances, processInstance, inst0, okB,
    passOutcome, emptySB]

/-- Claim C8, amended: when no instances are loaded, `evaluate_agent`
returns score 0 and leaves the history untouched; otherwise it iterates
exactly `min(requestedTaskCount, availableInstances)` instances in
loaded order, the aggregate score is the passed count divided by that
minimum (0 when the minimum is 0), and the run is appended to the
history. -/
theorem evaluate_agent_spec (instances : List Instance)
    (behav : Instance → Behavior) (n : Nat) (hist : List EvaluationRun)
    (sb : SandboxSet) :
    (instances = [] →
      evaluate_agent instances behav n hist sb = (0, hist, sb)) ∧
    (instances ≠ [] →
      ((runInstances (instances.take (min n instances.length)) behav
          sb).1).map (fun r => r.instance_id) =
        (instances.take (min n instances.length)).map
          (fun i => i.instance_id) ∧
      (evaluate_agent instances behav n hist sb).2.1 =
        hist ++ [⟨min n instances.length,
          (((runInstances (instances.take (min n instances.length)) behav
             sb).1).filter (fun r => r.success)).length,
          (evaluate_agent instances behav n hist sb).1,
          (runInstances (instances.take (min n instances.length)) behav
            sb).1⟩] ∧
      (evaluate_agent instances behav n hist sb).1 =
        (if 0 < min n instances.length then
          ((((runInstances (instances.take (min n instances.length)) behav
              sb).1).filter (fun r => r.success)).length : ℚ) /
            (min n instances.length)
         else 0)) := by
  constructor
  · intro h
    subst h
    rfl
  · intro h
    rw [evaluate_agent_nonempty instances behav n hist sb h]
    exact ⟨runInstances_ids _ behav sb, rfl, rfl⟩

/-- Claim C8, witness: the amended statement evaluated on a passing
single-instance batch with requested count 1, and on the empty batch. -/
theorem evaluate_agent_spec_witness :
    ((runInstances ([inst0].take (min 1 [inst0].length)) (fun _ => okB)
        emptySB).1).map (fun r => r.instance_id) =
      ([inst0].take (min 1 [inst0].length)).map (fun i => i.instance_id) ∧
    evaluate_agent [] (fun _ => okB) 3 [] emptySB = (0, [], emptySB) :=
  ⟨((evaluate_agent_spec [inst0] (fun _ => okB) 1 [] emptySB).2
      (by decide)).1,
   (evaluate_agent_spec [] (fun _ => okB) 3 [] emptySB).1 rfl⟩

/-- Claim C9: every instance whose processing raises (sandbox setup or
the external agent's solve call) yields an EvaluationResult with
success false, score 0 and reason `"Exception: " ++ text`; the
exception never shortens the result list — one result is recorded per
processed instance — and the recorded run of `evaluate_agent` is
exactly that result list. -/
theorem evaluate_agent_exception_isolation (instances : List Instance)
    (behav : Instance → Behavior) (sb : SandboxSet) :
    ((runInstances instances behav sb).1).length = instances.length ∧
    (∀ (j : Nat) (inst : Instance) (e : String),
      instances[j]? = some inst →
      instanceException (behav inst) = some e →
      ((runInstances instances behav sb).1)[j]? =
        some (⟨inst.instance_id, false, 0, "Exception: " ++ e⟩ :
          InstanceResult)) ∧
    (∀ n hist, instances ≠ [] →
      (evaluate_agent instances behav n hist sb).2.1 =
        hist ++ [⟨min n instances.length,
          (((runInstances (instances.take (min n instances.length)) behav
             sb).1).filter (fun r => r.success)).length,
          (evaluate_agent instances behav n hist sb).1,
          (runInstances (instances.take (min n instances.length)) behav
            sb).1⟩]) := by
  refine ⟨runInstances_length instances behav sb, ?_, ?_⟩
  · intro j inst e hj he
    exact runInstances_exception_at instances behav sb j inst e hj he
  · intro n hist h
    rw [evaluate_agent_nonempty instances behav n hist sb h]

/-- Claim C9, witness: on a single instance whose solve call raises,
one result is still recorded and it carries the exception text. -/
theorem evaluate_agent_exception_isolation_witness :
    ((runInstances [inst0] (fun _ => leakB) emptySB).1).length = 1 ∧
    ((runInstances [inst0] (fun _ => leakB) emptySB).1)[0]? =
      some ⟨inst0.instance_id, false, 0, "Exception: " ++ "agent crashed"⟩ :=
  ⟨(evaluate_agent_exception_isolation [inst0] (fun _ => leakB) emptySB).1,
   (evaluate_agent_exception_isolation [inst0] (fun _ => leakB)
      emptySB).2.1 0 inst0 "agent crashed" rfl rfl⟩

/-- Claim C3 (code bug in strategy 1): the source's fenced-block
pattern is literally six consecutive backticks, which cannot match a
fenced diff block with content.  On a solution whose
fenced block contains a diff, strategy 1 finds nothing (the solution
contains no six-backtick run) and strategy 2 returns everything from
the `diff --git` line to the end of the text **including the closing
fence**, which differs from the fenced block's diff content; and on the
degenerate input that the pattern does match, the returned "patch" is
the six backticks themselves. -/
theorem extract_fenced_diff_bug :
    extract_patch_from_solution sol3 okProc okProc okProc okProc =
      "diff --git a/f.txt b/f.txt\n--- a/f.txt\n+++ b/f.txt\n```" ∧
    "diff --git a/f.txt b/f.txt\n--- a/f.txt\n+++ b/f.txt\n```" ≠
      "diff --git a/f.txt b/f.txt\n--- a/f.txt\n+++ b/f.txt" ∧
    containsRun diffPattern.toList sol3.toList = false ∧
    extract_patch_from_solution "``````" okProc okProc okProc okProc =
      "``````" :=
  ⟨by decide, by decide, by decide, by decide⟩

/-- Claim C10: the catch-all `except` of the extractor maps any
exception raised inside the body — text scanning or any of the four
sandbox git invocations — to the empty string, the "no patch found"
value; the function itself is total. -/
theorem extract_never_raises (solution : String)
    (gitDiff gitStatus gitAdd gitDiffCached : Except String ProcResult)
    (e : String)
    (h : extractBody solution gitDiff gitStatus gitAdd gitDiffCached =
      Except.error e) :
    extract_patch_from_solution solution gitDiff gitStatus gitAdd
      gitDiffCached = "" := by
  unfold extract_patch_from_solution
  rw [h]

/-- Claim C10, witness: a plain solution with a raising `git diff`
oracle reaches strategy 3, whose exception is caught and turned into
the empty string. -/
theorem extract_never_raises_witness :
    extractBody plainSol errProc okProc okProc okProc =
      Except.error "boom" ∧
    extract_patch_from_solution plainSol errProc okProc okProc okProc =
      "" :=
  ⟨by decide,
   extract_never_raises plainSol errProc okProc okProc okProc "boom"
     (by decide)⟩

/-- Claim C5: when the `git apply` of the agent patch exits non-zero
(unparseable or conflicting patch), `evaluate_patch` returns success
false, score 0 and a reason describing the apply failure, the test
command is not invoked, and the outcome does not depend on what the
tests would have returned. -/
theorem evaluate_patch_apply_failure (applyResult : ProcResult)
    (t₁ t₂ : TestResult) (h : applyResult.returncode ≠ 0) :
    evaluate_patch applyResult t₁ =
      (⟨false, "Patch failed to apply: " ++ applyResult.stderr, 0⟩,
       false) ∧
    evaluate_patch applyResult t₁ = evaluate_patch applyResult t₂ := by
  unfold evaluate_patch
  rw [if_pos h, if_pos h]
  exact ⟨rfl, rfl⟩

/-- Claim C5, witness: a concrete failing apply (exit code 1) with two
arbitrary different test oracles. -/
theorem evaluate_patch_apply_failure_witness :
    evaluate_patch ⟨1, "", "corrupt patch"⟩ ⟨true, none, none, none⟩ =
      (⟨false, "Patch failed to apply: " ++ "corrupt patch", 0⟩, false) ∧
    evaluate_patch ⟨1, "", "corrupt patch"⟩ ⟨true, none, none, none⟩ =
      evaluate_patch ⟨1, "", "corrupt patch"⟩
        ⟨false, some "ran", some "out", some "err"⟩ :=
  evaluate_patch_apply_failure ⟨1, "", "corrupt patch"⟩
    ⟨true, none, none, none⟩ ⟨false, some "ran", some "out", some "err"⟩
    (by decide)

end SimpleDGM
